import Mathlib

/-
Shallow embedding of the call/declaration graph builder of basic-parser.py
(repository LSP-Parser).  The symbol provider (multilspy language server) is
external input: it is modelled as two query functions passed to the build,
one for document symbols and one for references, each returning an Except to
model a raised exception.  Python dictionaries become structures; list
append becomes appending a singleton; the per-file mutable lists of
get_functions_from_file become a FileState record threaded through the
recursion.  Path-library helpers (os.path.basename, os.path.normpath,
os.path.relpath, os.path.join) are modelled on slash-separated strings; the
claims under study do not depend on path normalization, so normpath is the
identity on the already-normalized paths the build constructs.
-/

namespace BasicParser

/-- A document symbol as returned by the provider: name, LSP kind code
(2 module, 5 class, 6 method, 7 property, 12 function), the full range
start/end lines, the selectionRange start position, and nested children. -/
inductive Symbol where
  | mk (name : String) (kind : Nat) (startLine endLine selLine selChar : Nat)
      (children : List Symbol)

def Symbol.name : Symbol → String
  | .mk n _ _ _ _ _ _ => n

def Symbol.kind : Symbol → Nat
  | .mk _ k _ _ _ _ _ => k

def Symbol.startLine : Symbol → Nat
  | .mk _ _ s _ _ _ _ => s

def Symbol.endLine : Symbol → Nat
  | .mk _ _ _ e _ _ _ => e

def Symbol.selLine : Symbol → Nat
  | .mk _ _ _ _ l _ _ => l

def Symbol.selChar : Symbol → Nat
  | .mk _ _ _ _ _ c _ => c

def Symbol.children : Symbol → List Symbol
  | .mk _ _ _ _ _ _ cs => cs

/-- An entity info dictionary (the class_info, import_info, method_info,
property_info, func_info dicts): the stored range key holds the whole
symbol, of which only the range start/end lines and the selectionRange
start position are ever read, so those projections are stored directly. -/
structure EntityInfo where
  name : String
  kind : String
  file_path : String
  line : Nat
  file : String
  startLine : Nat
  endLine : Nat
  selLine : Nat
  selChar : Nat
  parent_class : Option String
  deriving DecidableEq, Repr

/-- A graph node dictionary. -/
structure Node where
  id : String
  name : String
  kind : String
  file : String
  line : Nat
  deriving DecidableEq, Repr

/-- An edge dictionary: the Python keys from and to are both Lean keywords,
so the fields are named fro and toId. -/
structure Edge where
  fro : String
  toId : String
  deriving DecidableEq, Repr

/-- A reference location returned by request_references. -/
structure Ref where
  relativePath : String
  line : Nat
  deriving DecidableEq, Repr

/-- Helper for basename: keep the characters after the last slash. -/
def lastComponentAux : List Char → List Char → List Char
  | [], acc => acc.reverse
  | c :: rest, acc =>
    if c = '/' then lastComponentAux rest []
    else lastComponentAux rest (c :: acc)

/-- Model of os.path.basename on slash-separated paths. -/
def basename (p : String) : String := ⟨lastComponentAux p.data []⟩

/-- Model of os.path.normpath: the build only applies it to paths it
constructed itself, and no claim depends on normalization, so it is the
identity. -/
def normpath (p : String) : String := p

/-- Model of os.path.join with forward slashes. -/
def joinPath (a b : String) : String := a ++ "/" ++ b

/-- Model of os.path.relpath(p, root) for the paths the build passes in,
which always have the form root ++ slash ++ rel. -/
def relpathUnder (root p : String) : String := p.drop (root.length + 1)

/-- Node and edge identifier format: name, two colons, file basename. -/
def mkId (name file : String) : String := name ++ "::" ++ file

/-- The mutable per-file accumulators of get_functions_from_file. -/
structure FileState where
  all_functions : List EntityInfo
  nodes : List Node
  all_classes : List EntityInfo
  all_methods : List EntityInfo
  all_properties : List EntityInfo
  all_imports : List EntityInfo
  method_class_edges : List Edge
  property_class_edges : List Edge
  import_file_edges : List Edge
  deriving DecidableEq, Repr

def emptyFileState : FileState :=
  ⟨[], [], [], [], [], [], [], [], []⟩

/-
The recursive symbol classifier process_symbol, and its iteration over a
list of sibling symbols.  Each branch mirrors one kind case of the source:
class (5) records a class entity and node then descends with parent_class
set to its own name; module/import (2) records an import entity and node and
descends preserving parent_class; method (6) and property (7) record the
entity and node, add a tentative declaration edge when parent_class is set,
and descend; function (12) records the entity and node and descends; any
other kind records nothing but still descends.
-/
mutual

def processSymbol (fp : String) (sym : Symbol) (parent_class : Option String)
    (st : FileState) : FileState :=
  match sym with
  | .mk nm kd sLine eLine selL selC children =>
    if kd = 5 then
      let node_id := mkId nm (basename fp)
      let st := { st with
        all_classes := st.all_classes ++
          [{ name := nm, kind := "CLASS", file_path := fp, line := sLine + 1,
             file := basename fp, startLine := sLine, endLine := eLine,
             selLine := selL, selChar := selC, parent_class := none }],
        nodes := st.nodes ++
          [{ id := node_id, name := nm, kind := "CLASS", file := basename fp,
             line := sLine + 1 }] }
      processSymbols fp children (some nm) st
    else if kd = 2 then
      let node_id := mkId nm (basename fp)
      let st := { st with
        all_imports := st.all_imports ++
          [{ name := nm, kind := "IMPORT", file_path := fp, line := sLine + 1,
             file := basename fp, startLine := sLine, endLine := eLine,
             selLine := selL, selChar := selC, parent_class := none }],
        nodes := st.nodes ++
          [{ id := node_id, name := nm, kind := "IMPORT", file := basename fp,
             line := sLine + 1 }] }
      processSymbols fp children parent_class st
    else if kd = 6 then
      let node_id := mkId nm (basename fp)
      let st := { st with
        all_methods := st.all_methods ++
          [{ name := nm, kind := "METHOD", file_path := fp, line := sLine + 1,
             file := basename fp, startLine := sLine, endLine := eLine,
             selLine := selL, selChar := selC, parent_class := parent_class }],
        nodes := st.nodes ++
          [{ id := node_id, name := nm, kind := "METHOD", file := basename fp,
             line := sLine + 1 }] }
      let st := match parent_class with
        | some p => { st with method_class_edges := st.method_class_edges ++
            [{ fro := mkId p (basename fp), toId := node_id }] }
        | none => st
      processSymbols fp children parent_class st
    else if kd = 7 then
      let node_id := mkId nm (basename fp)
      let st := { st with
        all_properties := st.all_properties ++
          [{ name := nm, kind := "PROPERTY", file_path := fp, line := sLine + 1,
             file := basename fp, startLine := sLine, endLine := eLine,
             selLine := selL, selChar := selC, parent_class := parent_class }],
        nodes := st.nodes ++
          [{ id := node_id, name := nm, kind := "PROPERTY", file := basename fp,
             line := sLine + 1 }] }
      let st := match parent_class with
        | some p => { st with property_class_edges := st.property_class_edges ++
            [{ fro := mkId p (basename fp), toId := node_id }] }
        | none => st
      processSymbols fp children parent_class st
    else if kd = 12 then
      let node_id := mkId nm (basename fp)
      let st := { st with
        all_functions := st.all_functions ++
          [{ name := nm, kind := "FUNCTION", file_path := fp, line := sLine + 1,
             file := basename fp, startLine := sLine, endLine := eLine,
             selLine := selL, selChar := selC, parent_class := none }],
        nodes := st.nodes ++
          [{ id := node_id, name := nm, kind := "FUNCTION", file := basename fp,
             line := sLine + 1 }] }
      processSymbols fp children parent_class st
    else
      processSymbols fp children parent_class st

def processSymbols (fp : String) (syms : List Symbol) (parent_class : Option String)
    (st : FileState) : FileState :=
  match syms with
  | [] => st
  | s :: rest => processSymbols fp rest parent_class (processSymbol fp s parent_class st)

end

/-- The containment test of the reconciliation pass: same (normalized) file
path and the member's start line within the class's start/end lines,
inclusive. -/
def containsMember (c m : EntityInfo) : Bool :=
  normpath c.file_path == normpath m.file_path &&
    c.startLine ≤ m.startLine && m.startLine ≤ c.endLine

/-- One iteration of the reconciliation loop body: scan all_classes in
order, stop at the first class containing the member, and append the
class-to-member edge unless it is already present. -/
def reconcileStep (all_classes : List EntityInfo) (edges : List Edge)
    (m : EntityInfo) : List Edge :=
  match all_classes.find? (fun c => containsMember c m) with
  | some c =>
    let e : Edge := ⟨mkId c.name c.file, mkId m.name m.file⟩
    if e ∈ edges then edges else edges ++ [e]
  | none => edges

/-- get_functions_from_file: classify every top-level symbol (no symbols
means the empty result is returned unchanged), then run the containment
reconciliation pass over methods and over properties. -/
def get_functions_from_file (fp : String) (symbols : List Symbol) : FileState :=
  if symbols.isEmpty then emptyFileState
  else
    let st := processSymbols fp symbols none emptyFileState
    let st := { st with method_class_edges :=
      st.all_methods.foldl (reconcileStep st.all_classes) st.method_class_edges }
    { st with property_class_edges :=
      st.all_properties.foldl (reconcileStep st.all_classes) st.property_class_edges }

/-- find_caller_function: first function whose file matches and whose
range contains the reference line. -/
def find_caller_function (all_functions : List EntityInfo) (ref_path : String)
    (ref_line : Nat) : Option EntityInfo :=
  all_functions.find? (fun f => normpath f.file_path == ref_path &&
    f.startLine ≤ ref_line && ref_line ≤ f.endLine)

/-- find_caller_method, same shape over methods. -/
def find_caller_method (all_methods : List EntityInfo) (ref_path : String)
    (ref_line : Nat) : Option EntityInfo :=
  all_methods.find? (fun m => normpath m.file_path == ref_path &&
    m.startLine ≤ ref_line && ref_line ≤ m.endLine)

/-- find_caller_property, same shape over properties. -/
def find_caller_property (all_properties : List EntityInfo) (ref_path : String)
    (ref_line : Nat) : Option EntityInfo :=
  all_properties.find? (fun p => normpath p.file_path == ref_path &&
    p.startLine ≤ ref_line && ref_line ≤ p.endLine)

/-- find_caller_class, same shape over classes (computed by the source but
never used to create an edge). -/
def find_caller_class (all_classes : List EntityInfo) (ref_path : String)
    (ref_line : Nat) : Option EntityInfo :=
  all_classes.find? (fun c => normpath c.file_path == ref_path &&
    c.startLine ≤ ref_line && ref_line ≤ c.endLine)

/-- Append an edge unless already present (the if edge not in edges guard). -/
def dedupAppend (edges : List Edge) (e : Edge) : List Edge :=
  if e ∈ edges then edges else edges ++ [e]

/-- One arm of the if/elif chain: when the candidate caller exists and its
name differs from the queried name, produce the updated edge list, else
report that this arm did not fire. -/
def tryCallerEdge (edges : List Edge) (c : Option EntityInfo)
    (calleeName callee_id : String) : Option (List Edge) :=
  match c with
  | some e =>
    if e.name ≠ calleeName then
      some (dedupAppend edges ⟨mkId e.name e.file, callee_id⟩)
    else none
  | none => none

/-- The per-reference body of find_function_edges: resolve the containing
function, method, property (and class, unused) of the reference line, then
run the if/elif chain that records a call edge from the first hit whose
name differs from the queried entity's name.  A reference resolved only to
a class adds nothing. -/
def processRef (root_path : String)
    (all_functions all_classes all_methods all_properties : List EntityInfo)
    (func : EntityInfo) (edges : List Edge) (ref : Ref) : List Edge :=
  let ref_path := normpath (joinPath root_path ref.relativePath)
  let ref_line := ref.line
  let caller_func := find_caller_function all_functions ref_path ref_line
  let caller_method := find_caller_method all_methods ref_path ref_line
  let caller_property := find_caller_property all_properties ref_path ref_line
  let _caller_class := find_caller_class all_classes ref_path ref_line
  let callee_id := mkId func.name func.file
  match tryCallerEdge edges caller_func func.name callee_id with
  | some es => es
  | none =>
    match tryCallerEdge edges caller_method func.name callee_id with
    | some es => es
    | none =>
      match tryCallerEdge edges caller_property func.name callee_id with
      | some es => es
      | none => edges

/-- The per-callee body of the find_function_edges loop: issue the
references query at the callee's selectionRange start; a raised exception
is caught and the callee skipped; otherwise fold the per-reference body
over the returned locations (an empty result contributes nothing). -/
def calleeStep (root_path : String)
    (all_functions all_classes all_methods all_properties : List EntityInfo)
    (refsProvider : String → Nat → Nat → Except String (List Ref))
    (edges : List Edge) (func : EntityInfo) : List Edge :=
  let relative_path := relpathUnder root_path func.file_path
  match refsProvider relative_path func.selLine func.selChar with
  | .error _ => edges
  | .ok refs_result =>
    refs_result.foldl
      (processRef root_path all_functions all_classes all_methods all_properties func)
      edges

/-- The reference-query anchor list of find_function_edges: functions,
methods, properties and imports, concatenated in that order. -/
def allCallees (all_functions all_methods all_properties all_imports : List EntityInfo) :
    List EntityInfo :=
  all_functions ++ all_methods ++ all_properties ++ all_imports

/-- find_function_edges: fold the per-callee body over the anchor list,
starting from an empty edge list. -/
def find_function_edges (root_path : String)
    (all_functions all_classes all_methods all_properties all_imports : List EntityInfo)
    (refsProvider : String → Nat → Nat → Except String (List Ref)) : List Edge :=
  (allCallees all_functions all_methods all_properties all_imports).foldl
    (calleeStep root_path all_functions all_classes all_methods all_properties refsProvider)
    []

/-- The set of node ids incident to any call or declaration edge (the
edge_node_ids set, modelled as a list queried only for membership). -/
def edgeNodeIds (call_edges declaration_edges : List Edge) : List String :=
  (call_edges ++ declaration_edges).flatMap (fun e => [e.fro, e.toId])

/-- The loop body of the reclassification pass on one node: a CLASS node
with no incident edge has its kind field set to IMPORT, any other node is
untouched. -/
def reclassifyNode (edge_node_ids : List String) (node : Node) : Node :=
  if node.kind == "CLASS" && !(edge_node_ids.contains node.id) then
    { node with kind := "IMPORT" }
  else node

/-- reclassify_isolated_classes_as_imports: every CLASS node whose id is
incident to no edge has its kind field set to IMPORT; all other nodes are
left as they are, in place. -/
def reclassify_isolated_classes_as_imports (nodes : List Node)
    (call_edges declaration_edges : List Edge) : List Node :=
  let edge_node_ids := edgeNodeIds call_edges declaration_edges
  nodes.map (reclassifyNode edge_node_ids)

/-- A graph value: nodes plus edges. -/
structure Graph where
  nodes : List Node
  edges : List Edge
  deriving DecidableEq, Repr

def create_call_graph (nodes : List Node) (call_edges : List Edge) : Graph :=
  ⟨nodes, call_edges⟩

/-- create_declaration_graph: structural edges only; import_file_edges is
accepted and ignored, as in the source. -/
def create_declaration_graph (nodes : List Node)
    (method_class_edges property_class_edges import_file_edges : List Edge) : Graph :=
  ⟨nodes, method_class_edges ++ property_class_edges⟩

/-- The three-graph bundle returned by build_code_graph_with_multilspy. -/
structure BuildResult where
  combined : Graph
  call : Graph
  declaration : Graph
  deriving DecidableEq, Repr

/-- The global accumulators of build_code_graph_with_multilspy. -/
structure GlobalState where
  all_functions : List EntityInfo
  all_classes : List EntityInfo
  all_methods : List EntityInfo
  all_properties : List EntityInfo
  all_imports : List EntityInfo
  method_class_edges : List Edge
  property_class_edges : List Edge
  import_file_edges : List Edge
  nodes : List Node
  deriving DecidableEq, Repr

def emptyGlobalState : GlobalState :=
  ⟨[], [], [], [], [], [], [], [], []⟩

/-- One iteration of the STEP A loop: request document symbols for the file
(relative path), with no exception handling around the request, and extend
every global accumulator with the per-file results. -/
def collectFile (root : String) (docSyms : String → Except String (List Symbol))
    (gs : GlobalState) (file : String) : Except String GlobalState :=
  let file_path := joinPath root file
  match docSyms (relpathUnder root file_path) with
  | .error e => .error e
  | .ok syms =>
    let fs := get_functions_from_file file_path syms
    .ok ⟨gs.all_functions ++ fs.all_functions,
      gs.all_classes ++ fs.all_classes,
      gs.all_methods ++ fs.all_methods,
      gs.all_properties ++ fs.all_properties,
      gs.all_imports ++ fs.all_imports,
      gs.method_class_edges ++ fs.method_class_edges,
      gs.property_class_edges ++ fs.property_class_edges,
      gs.import_file_edges ++ fs.import_file_edges,
      gs.nodes ++ fs.nodes⟩

/-- The STEP A loop over all files: an exception from any per-file document
symbol request propagates and aborts the loop. -/
def collectFiles (root : String) (files : List String)
    (docSyms : String → Except String (List Symbol)) : Except String GlobalState :=
  files.foldlM (collectFile root docSyms) emptyGlobalState

/-- build_code_graph_with_multilspy, from the point where the server is up:
collect entities per file (STEP A), find call edges (STEP B), reclassify
isolated classes on the shared node list, and assemble the three graphs. -/
def build_code_graph (root : String) (files : List String)
    (docSyms : String → Except String (List Symbol))
    (refsProvider : String → Nat → Nat → Except String (List Ref)) :
    Except String BuildResult :=
  match collectFiles root files docSyms with
  | .error e => .error e
  | .ok gs =>
    let call_edges := find_function_edges root gs.all_functions gs.all_classes
      gs.all_methods gs.all_properties gs.all_imports refsProvider
    let declaration_edges := gs.method_class_edges ++ gs.property_class_edges
    let nodes := reclassify_isolated_classes_as_imports gs.nodes call_edges declaration_edges
    let call_graph := create_call_graph nodes call_edges
    let declaration_graph := create_declaration_graph nodes gs.method_class_edges
      gs.property_class_edges gs.import_file_edges
    .ok ⟨⟨nodes, call_edges ++ declaration_edges⟩, call_graph, declaration_graph⟩

/-- A file with one class containing one method, and a second file with one
top-level function; the function body references the method. -/
def symsOps : List Symbol :=
  [Symbol.mk "Calculator" 5 10 30 10 6 [Symbol.mk "add" 6 12 13 12 8 []]]

def symsMain : List Symbol :=
  [Symbol.mk "main" 12 1 8 1 4 []]

def docSymsEx : String → Except String (List Symbol) := fun f =>
  if f == "operations.py" then .ok symsOps
  else if f == "main.py" then .ok symsMain
  else .ok []

def refsEx : String → Nat → Nat → Except String (List Ref) := fun f l _ =>
  if f == "operations.py" && l == 12 then .ok [⟨"main.py", 3⟩]
  else .ok []

/-- The global state the example build accumulates. -/
def gsEx : GlobalState :=
  match collectFiles "root" ["operations.py", "main.py"] docSymsEx with
  | .ok gs => gs
  | .error _ => emptyGlobalState

/-- The three-graph bundle the example build produces. -/
def buildEx : BuildResult :=
  match build_code_graph "root" ["operations.py", "main.py"] docSymsEx refsEx with
  | .ok g => g
  | .error _ => ⟨⟨[], []⟩, ⟨[], []⟩, ⟨[], []⟩⟩

/-- A single-file input whose only symbol is an import (kind 2). -/
def impState : FileState :=
  get_functions_from_file "root/a.py"
    [Symbol.mk "os" 2 0 0 0 7 [], Symbol.mk "helper" 12 2 4 2 4 []]

/-- The edge one arm of the if/elif chain would produce, without the edge
list: some edge when the candidate caller exists under a different name. -/
def callerEdge (c : Option EntityInfo) (calleeName callee_id : String) :
    Option Edge :=
  match c with
  | some e =>
    if e.name ≠ calleeName then some ⟨mkId e.name e.file, callee_id⟩ else none
  | none => none

/-- The edge the whole if/elif chain would record for one reference. -/
def resolveRefEdge (root_path : String) (fns ms ps : List EntityInfo)
    (func : EntityInfo) (ref : Ref) : Option Edge :=
  let ref_path := normpath (joinPath root_path ref.relativePath)
  let callee_id := mkId func.name func.file
  match callerEdge (find_caller_function fns ref_path ref.line) func.name callee_id with
  | some e => some e
  | none =>
    match callerEdge (find_caller_method ms ref_path ref.line) func.name callee_id with
    | some e => some e
    | none => callerEdge (find_caller_property ps ref_path ref.line) func.name callee_id

/-- A file with one class containing one method that references a function
in a second file: the reference's containing entity resolves through the
method arm of the caller chain (no function contains the line). -/
def symsC : List Symbol :=
  [Symbol.mk "C" 5 0 10 0 6 [Symbol.mk "caller" 6 2 4 2 8 []]]

def symsD : List Symbol :=
  [Symbol.mk "helper" 12 0 5 0 4 []]

def docSymsM : String → Except String (List Symbol) := fun f =>
  if f == "c.py" then .ok symsC
  else if f == "d.py" then .ok symsD
  else .ok []

def refsM : String → Nat → Nat → Except String (List Ref) := fun f l _ =>
  if f == "d.py" && l == 0 then .ok [⟨"c.py", 3⟩] else .ok []

/-- The global state of the method-caller example build. -/
def gsM : GlobalState :=
  match collectFiles "root" ["c.py", "d.py"] docSymsM with
  | .ok gs => gs
  | .error _ => emptyGlobalState

/-- Provenance of a call edge: it joins a containing entity from the
function, method or property pool to a queried anchor entity, and the two
names differ. -/
def edgeProvenance (fns ms ps imps : List EntityInfo) (e : Edge) : Prop :=
  ∃ cf func2, (cf ∈ fns ∨ cf ∈ ms ∨ cf ∈ ps) ∧
    func2 ∈ allCallees fns ms ps imps ∧ cf.name ≠ func2.name ∧
    e = ⟨mkId cf.name cf.file, mkId func2.name func2.file⟩

def nodeIds (nodes : List Node) : List String := nodes.map Node.id

def poolInv (pool : List EntityInfo) (nodes : List Node) : Prop :=
  ∀ e ∈ pool, mkId e.name e.file ∈ nodeIds nodes

def edgesInv (edges : List Edge) (nodes : List Node) : Prop :=
  ∀ e ∈ edges, e.fro ∈ nodeIds nodes ∧ e.toId ∈ nodeIds nodes

def stInv (st : FileState) : Prop :=
  poolInv st.all_functions st.nodes ∧ poolInv st.all_classes st.nodes ∧
    poolInv st.all_methods st.nodes ∧ poolInv st.all_properties st.nodes ∧
    poolInv st.all_imports st.nodes ∧
    edgesInv st.method_class_edges st.nodes ∧
    edgesInv st.property_class_edges st.nodes

def pcInv (fp : String) (pc : Option String) (nodes : List Node) : Prop :=
  ∀ p, pc = some p → mkId p (basename fp) ∈ nodeIds nodes

def gsInv (gs : GlobalState) : Prop :=
  poolInv gs.all_functions gs.nodes ∧ poolInv gs.all_classes gs.nodes ∧
    poolInv gs.all_methods gs.nodes ∧ poolInv gs.all_properties gs.nodes ∧
    poolInv gs.all_imports gs.nodes ∧
    edgesInv gs.method_class_edges gs.nodes ∧
    edgesInv gs.property_class_edges gs.nodes

/-- C4 counterexample input: a function named main in each of two files;
the reference query for main in a.py reports a reference inside main in
b.py, a containing Function entity with a different id. -/
def fnsC4 : List EntityInfo :=
  (get_functions_from_file "root/a.py" [Symbol.mk "main" 12 0 5 0 4 []]).all_functions ++
    (get_functions_from_file "root/b.py" [Symbol.mk "main" 12 0 5 0 4 []]).all_functions

def refsC4 : String → Nat → Nat → Except String (List Ref) := fun f l _ =>
  if f == "a.py" && l == 0 then .ok [⟨"b.py", 2⟩] else .ok []

/-- C2 counterexample input: two same-named classes each holding a
same-named method; the two tentative edges collide on the same id pair and
are appended twice, so a method lying in exactly one class range ends with
its class-to-method edge listed twice. -/
def symsDup : List Symbol :=
  [Symbol.mk "K" 5 0 10 0 6 [Symbol.mk "m" 6 2 3 2 8 []],
   Symbol.mk "K" 5 20 30 20 6 [Symbol.mk "m" 6 22 23 22 8 []]]

/-
Lemmas and claim theorems, in dependency order: generic fold and list
helpers, the per-claim machinery, and one theorem per claim with its
witness or counterexample.
-/

/-- A fold whose step extends the accumulator keeps every element. -/
lemma foldl_subset_of_mono {α β : Type} (step : List α → β → List α)
    (hmono : ∀ acc b, acc ⊆ step acc b) :
    ∀ (l : List β) (acc : List α), acc ⊆ l.foldl step acc := by
  intro l
  induction l with
  | nil => intro acc; exact fun x hx => hx
  | cons b rest ih =>
    intro acc
    exact fun x hx => ih (step acc b) (hmono acc b hx)

/-- If some list element's step always puts x into the accumulator and the
step never drops elements, then x is in the fold's result. -/
lemma mem_foldl_of_step {α β : Type} (step : List α → β → List α)
    (hmono : ∀ acc b, acc ⊆ step acc b) (x : α) (b0 : β) :
    ∀ (l : List β), b0 ∈ l → (∀ acc, x ∈ step acc b0) →
      ∀ acc, x ∈ l.foldl step acc := by
  intro l
  induction l with
  | nil => intro h; exact absurd h (List.not_mem_nil b0)
  | cons b rest ih =>
    intro hb hx acc
    rcases List.mem_cons.mp hb with hb | hb
    · subst hb
      exact foldl_subset_of_mono step hmono rest (step acc b0) (hx acc)
    · exact ih hb hx (step acc b)

/-- A fold over a list equals the fold over the sublist of elements whose
step actually does something, when the remaining steps are the identity. -/
lemma foldl_eq_foldl_filter {α β : Type} (step : α → β → α) (p : β → Bool)
    (hid : ∀ acc b, p b = false → step acc b = acc) :
    ∀ (l : List β) (acc : α), l.foldl step acc = (l.filter p).foldl step acc := by
  intro l
  induction l with
  | nil => intro acc; rfl
  | cons b rest ih =>
    intro acc
    cases hp : p b with
    | true => simp [List.filter_cons, hp, ih]
    | false => simp [List.filter_cons, hp, hid acc b hp, ih]

/-- A property preserved by every step of a fold holds of the result. -/
lemma foldl_preserves {α β : Type} (step : α → β → α) (P : α → Prop) :
    ∀ (l : List β) (acc : α), P acc → (∀ a b, b ∈ l → P a → P (step a b)) →
      P (l.foldl step acc) := by
  intro l
  induction l with
  | nil => intro acc h _; exact h
  | cons b rest ih =>
    intro acc h hstep
    exact ih (step acc b) (hstep acc b (List.mem_cons_self b rest) h)
      (fun a c hc ha => hstep a c (List.mem_cons_of_mem b hc) ha)

/-- Membership in a dedupAppend result is membership in the old list or
being the appended edge; the appended edge itself is always a member. -/
lemma mem_dedupAppend {edges : List Edge} {x e : Edge}
    (h : x ∈ dedupAppend edges e) : x ∈ edges ∨ x = e := by
  unfold dedupAppend at h
  by_cases he : e ∈ edges
  · simp [he] at h; exact Or.inl h
  · simp [he] at h
    rcases h with h | h
    · exact Or.inl h
    · exact Or.inr h

lemma self_mem_dedupAppend (edges : List Edge) (e : Edge) :
    e ∈ dedupAppend edges e := by
  unfold dedupAppend
  by_cases he : e ∈ edges
  · simp [he]
  · simp [he]

lemma subset_dedupAppend (edges : List Edge) (e : Edge) :
    edges ⊆ dedupAppend edges e := by
  unfold dedupAppend
  by_cases he : e ∈ edges
  · simp [he]
  · rw [if_neg he]
    exact List.subset_append_left _ _

/-- Appending with the membership guard never creates a duplicate. -/
lemma nodup_dedupAppend {edges : List Edge} (e : Edge)
    (h : edges.Nodup) : (dedupAppend edges e).Nodup := by
  unfold dedupAppend
  by_cases he : e ∈ edges
  · simpa [he]
  · rw [if_neg he]
    refine List.Nodup.append h (List.nodup_singleton e) ?_
    intro a ha hae
    rw [List.mem_singleton] at hae
    subst hae
    exact he ha

/-- Re-appending the same edge is a no-op. -/
lemma dedupAppend_idem (edges : List Edge) (e : Edge) :
    dedupAppend (dedupAppend edges e) e = dedupAppend edges e := by
  unfold dedupAppend
  by_cases he : e ∈ edges
  · simp [he]
  · simp [he]

/-- C1 counterexample claim states the anchor list of the call-edge pass
contains no Import entity; here a discovered Import entity sits in the
anchor list of find_function_edges (which folds over exactly this list). -/
theorem claim_C1_cex :
    (allCallees impState.all_functions impState.all_methods
        impState.all_properties impState.all_imports).any
      (fun e => e.kind == "IMPORT") = true := by decide

/-- C1 amended: the reference-query anchor list of find_function_edges is
exactly functions, methods, properties and imports, in that order; every
discovered Import entity is an anchor, alongside every Function, Method and
Property. -/
theorem claim_C1 (root : String)
    (fns cls ms ps imps : List EntityInfo)
    (refsProvider : String → Nat → Nat → Except String (List Ref)) :
    (find_function_edges root fns cls ms ps imps refsProvider =
      (allCallees fns ms ps imps).foldl
        (calleeStep root fns cls ms ps refsProvider) []) ∧
    (allCallees fns ms ps imps = fns ++ ms ++ ps ++ imps) ∧
    (∀ e ∈ imps, e ∈ allCallees fns ms ps imps) ∧
    (∀ e ∈ fns ++ ms ++ ps, e ∈ allCallees fns ms ps imps) := by
  refine ⟨rfl, rfl, ?_, ?_⟩
  · intro e he
    simp [allCallees, he]
  · intro e he
    simp only [List.mem_append] at he
    rcases he with (he | he) | he <;> simp [allCallees, he]

theorem claim_C1_witness :
    (Symbol.mk "os" 2 0 0 0 7 []).kind = 2 ∧
      ∀ e ∈ impState.all_imports,
        e ∈ allCallees impState.all_functions impState.all_methods
          impState.all_properties impState.all_imports :=
  ⟨rfl, (claim_C1 "root" impState.all_functions [] impState.all_methods
    impState.all_properties impState.all_imports (fun _ _ _ => .ok [])).2.2.1⟩

/-- C3 counterexample: the claim states that a per-file documentSymbols
exception is caught and the build continues; in the source the STEP A loop
has no try/except around request_document_symbols, so a single failing file
aborts the whole build with that error. -/
theorem claim_C3_cex :
    build_code_graph "root" ["a.py"] (fun _ => .error "boom")
      (fun _ _ _ => .ok []) = .error "boom" := rfl

/-- C3 amended: a per-symbol references exception is caught and skipped, so
edge discovery equals edge discovery over only the callees whose references
query succeeds; per-file documentSymbols exceptions, by contrast, abort the
build (see the counterexample). -/
theorem claim_C3 (root : String)
    (fns cls ms ps imps : List EntityInfo)
    (refsProvider : String → Nat → Nat → Except String (List Ref)) :
    find_function_edges root fns cls ms ps imps refsProvider =
      ((allCallees fns ms ps imps).filter
        (fun f => (refsProvider (relpathUnder root f.file_path)
          f.selLine f.selChar).isOk)).foldl
        (calleeStep root fns cls ms ps refsProvider) [] := by
  unfold find_function_edges
  apply foldl_eq_foldl_filter
  intro acc b hb
  unfold calleeStep
  cases hq : refsProvider (relpathUnder root b.file_path) b.selLine b.selChar with
  | error e => simp [hq]
  | ok l => rw [hq] at hb; simp [Except.isOk, Except.toBool] at hb

lemma tryCallerEdge_eq (edges : List Edge) (c : Option EntityInfo)
    (n id0 : String) :
    tryCallerEdge edges c n id0 =
      (callerEdge c n id0).map (dedupAppend edges) := by
  cases c with
  | none => rfl
  | some cf =>
    by_cases hn : cf.name ≠ n
    · simp [tryCallerEdge, callerEdge, hn]
    · simp [tryCallerEdge, callerEdge, hn]

/-- processRef either appends (with dedup) the edge resolveRefEdge names,
or leaves the list unchanged when no caller resolves. -/
lemma processRef_eq_resolve (root_path : String)
    (fns cls ms ps : List EntityInfo) (func : EntityInfo)
    (edges : List Edge) (ref : Ref) :
    processRef root_path fns cls ms ps func edges ref =
      match resolveRefEdge root_path fns ms ps func ref with
      | some e => dedupAppend edges e
      | none => edges := by
  simp only [processRef, resolveRefEdge, tryCallerEdge_eq]
  cases callerEdge (find_caller_function fns
      (normpath (joinPath root_path ref.relativePath)) ref.line) func.name
      (mkId func.name func.file) with
  | some e => rfl
  | none =>
    cases callerEdge (find_caller_method ms
        (normpath (joinPath root_path ref.relativePath)) ref.line) func.name
        (mkId func.name func.file) with
    | some e => rfl
    | none =>
      cases callerEdge (find_caller_property ps
          (normpath (joinPath root_path ref.relativePath)) ref.line) func.name
          (mkId func.name func.file) with
      | some e => rfl
      | none => rfl

lemma callerEdge_eq_some {c : Option EntityInfo} {n id0 : String} {e : Edge}
    (h : callerEdge c n id0 = some e) :
    ∃ cf, c = some cf ∧ cf.name ≠ n ∧ e = ⟨mkId cf.name cf.file, id0⟩ := by
  cases c with
  | none => simp [callerEdge] at h
  | some cf =>
    by_cases hn : cf.name ≠ n
    · simp [callerEdge, hn] at h
      exact ⟨cf, rfl, hn, h.symm⟩
    · simp [callerEdge, hn] at h

lemma find_caller_function_mem {fns : List EntityInfo} {rp : String}
    {rl : Nat} {cf : EntityInfo}
    (h : find_caller_function fns rp rl = some cf) : cf ∈ fns :=
  List.mem_of_find?_eq_some h

lemma find_caller_method_mem {ms : List EntityInfo} {rp : String}
    {rl : Nat} {cf : EntityInfo}
    (h : find_caller_method ms rp rl = some cf) : cf ∈ ms :=
  List.mem_of_find?_eq_some h

lemma find_caller_property_mem {ps : List EntityInfo} {rp : String}
    {rl : Nat} {cf : EntityInfo}
    (h : find_caller_property ps rp rl = some cf) : cf ∈ ps :=
  List.mem_of_find?_eq_some h

/-- Provenance of a resolved edge: its source is a pool entity found as the
containing caller, under a name differing from the queried entity's, and
its target id is the queried entity's id. -/
lemma resolveRefEdge_eq_some {root_path : String}
    {fns ms ps : List EntityInfo} {func : EntityInfo} {ref : Ref} {e : Edge}
    (h : resolveRefEdge root_path fns ms ps func ref = some e) :
    ∃ cf, (cf ∈ fns ∨ cf ∈ ms ∨ cf ∈ ps) ∧ cf.name ≠ func.name ∧
      e = ⟨mkId cf.name cf.file, mkId func.name func.file⟩ := by
  simp only [resolveRefEdge] at h
  cases h1 : callerEdge (find_caller_function fns
      (normpath (joinPath root_path ref.relativePath)) ref.line) func.name
      (mkId func.name func.file) with
  | some e1 =>
    rw [h1] at h
    simp only [Option.some.injEq] at h
    rcases callerEdge_eq_some h1 with ⟨cf, hcf, hn, he⟩
    exact ⟨cf, Or.inl (find_caller_function_mem hcf), hn, h ▸ he⟩
  | none =>
    rw [h1] at h
    cases h2 : callerEdge (find_caller_method ms
        (normpath (joinPath root_path ref.relativePath)) ref.line) func.name
        (mkId func.name func.file) with
    | some e2 =>
      rw [h2] at h
      simp only [Option.some.injEq] at h
      rcases callerEdge_eq_some h2 with ⟨cf, hcf, hn, he⟩
      exact ⟨cf, Or.inr (Or.inl (find_caller_method_mem hcf)), hn, h ▸ he⟩
    | none =>
      rw [h2] at h
      rcases callerEdge_eq_some h with ⟨cf, hcf, hn, he⟩
      exact ⟨cf, Or.inr (Or.inr (find_caller_property_mem hcf)), hn, he⟩

/-- C8: call edges have set semantics; the output of find_function_edges
never contains the same from/to pair twice, and re-processing the same
reference for the same callee is a no-op on the edge list. -/
theorem claim_C8 :
    (∀ (root : String) (fns cls ms ps imps : List EntityInfo)
      (refsProvider : String → Nat → Nat → Except String (List Ref)),
      (find_function_edges root fns cls ms ps imps refsProvider).Nodup) ∧
    (∀ (root : String) (fns cls ms ps : List EntityInfo)
      (func : EntityInfo) (edges : List Edge) (ref : Ref),
      processRef root fns cls ms ps func
          (processRef root fns cls ms ps func edges ref) ref =
        processRef root fns cls ms ps func edges ref) := by
  constructor
  · intro root fns cls ms ps imps refsProvider
    unfold find_function_edges
    refine foldl_preserves _ (fun l : List Edge => l.Nodup) _ _ List.nodup_nil ?_
    intro a b _ ha
    unfold calleeStep
    cases hq : refsProvider (relpathUnder root b.file_path) b.selLine b.selChar with
    | error e => simpa [hq] using ha
    | ok l =>
      simp only [hq]
      refine foldl_preserves _ (fun l2 : List Edge => l2.Nodup) _ _ ha ?_
      intro a2 r _ ha2
      rw [processRef_eq_resolve]
      cases resolveRefEdge root fns ms ps b r with
      | none => exact ha2
      | some e => exact nodup_dedupAppend e ha2
  · intro root fns cls ms ps func edges ref
    simp only [processRef_eq_resolve]
    cases resolveRefEdge root fns ms ps func ref with
    | none => rfl
    | some e => exact dedupAppend_idem edges e

/-- The pointwise effect of the reclassification pass, via List.map. -/
lemma reclassify_get (nodes : List Node) (ce de : List Edge) (i : Nat)
    (h : i < nodes.length)
    (h2 : i < (reclassify_isolated_classes_as_imports nodes ce de).length) :
    (reclassify_isolated_classes_as_imports nodes ce de).get ⟨i, h2⟩ =
      reclassifyNode (edgeNodeIds ce de) (nodes.get ⟨i, h⟩) := by
  simp [reclassify_isolated_classes_as_imports]

lemma reclassify_length (nodes : List Node) (ce de : List Edge) :
    (reclassify_isolated_classes_as_imports nodes ce de).length = nodes.length := by
  simp [reclassify_isolated_classes_as_imports]

lemma reclassifyNode_of_mem {S : List String} {node : Node}
    (hmem : node.id ∈ S) : reclassifyNode S node = node := by
  unfold reclassifyNode
  have hc : S.contains node.id = true := List.elem_iff.mpr hmem
  simp [hc]
  intro _ hnot
  exact absurd hmem hnot

lemma reclassifyNode_not_class {S : List String} {node : Node}
    (hk : node.kind ≠ "CLASS") : reclassifyNode S node = node := by
  unfold reclassifyNode
  have hb : (node.kind == "CLASS") = false := by
    rw [beq_eq_false_iff_ne]
    exact hk
  simp [hb]

lemma reclassifyNode_isolated_class {S : List String} {node : Node}
    (hk : node.kind = "CLASS") (hmem : node.id ∉ S) :
    reclassifyNode S node = { node with kind := "IMPORT" } := by
  unfold reclassifyNode
  have hc : S.contains node.id = false := by
    rw [← Bool.not_eq_true]
    intro hcon
    exact hmem (List.elem_iff.mp hcon)
  simp [hk, hc]
  intro hmem2
  exact absurd hmem2 hmem

/-- C9: a symbol whose kind code is none of 2, 5, 6, 7 or 12 creates no
entity, node or edge of its own; processing it is literally processing its
children with the unchanged parent_class context, so a Function nested
under such a symbol is still discovered. -/
theorem claim_C9 (fp nm : String) (kd sL eL selL selC : Nat)
    (children : List Symbol) (pc : Option String) (st : FileState)
    (h2 : kd ≠ 2) (h5 : kd ≠ 5) (h6 : kd ≠ 6) (h7 : kd ≠ 7) (h12 : kd ≠ 12) :
    processSymbol fp (Symbol.mk nm kd sL eL selL selC children) pc st =
      processSymbols fp children pc st := by
  simp only [processSymbol]
  simp [h2, h5, h6, h7, h12]

theorem claim_C9_witness :
    processSymbol "root/a.py"
        (Symbol.mk "wrapper" 13 0 9 0 0 [Symbol.mk "f" 12 1 2 1 4 []])
        none emptyFileState =
      processSymbols "root/a.py" [Symbol.mk "f" 12 1 2 1 4 []] none emptyFileState ∧
    (processSymbols "root/a.py" [Symbol.mk "f" 12 1 2 1 4 []] none
        emptyFileState).all_functions.length = 1 :=
  ⟨claim_C9 "root/a.py" "wrapper" 13 0 9 0 0 [Symbol.mk "f" 12 1 2 1 4 []]
      none emptyFileState (by decide) (by decide) (by decide) (by decide)
      (by decide),
    by decide⟩

/-- C6: a node of kind CLASS becomes IMPORT exactly when its id is an
endpoint of no call and no declaration edge, keeps kind CLASS when it is
incident to one, and the build installs the single reclassified list as the
node list of all three emitted graphs. -/
theorem claim_C6 :
    (∀ (nodes : List Node) (ce de : List Edge) (i : Nat)
      (h : i < nodes.length)
      (h2 : i < (reclassify_isolated_classes_as_imports nodes ce de).length),
      (nodes.get ⟨i, h⟩).kind = "CLASS" →
        (((reclassify_isolated_classes_as_imports nodes ce de).get ⟨i, h2⟩).kind =
            "IMPORT" ↔ (nodes.get ⟨i, h⟩).id ∉ edgeNodeIds ce de) ∧
        ((nodes.get ⟨i, h⟩).id ∈ edgeNodeIds ce de →
          ((reclassify_isolated_classes_as_imports nodes ce de).get ⟨i, h2⟩).kind =
            "CLASS")) ∧
    (∀ (root : String) (files : List String)
      (docSyms : String → Except String (List Symbol))
      (refsProvider : String → Nat → Nat → Except String (List Ref))
      (g : BuildResult),
      build_code_graph root files docSyms refsProvider = .ok g →
        g.call.nodes = g.declaration.nodes ∧
          g.declaration.nodes = g.combined.nodes) := by
  constructor
  · intro nodes ce de i h h2 hk
    rw [reclassify_get nodes ce de i h h2]
    by_cases hmem : (nodes.get ⟨i, h⟩).id ∈ edgeNodeIds ce de
    · rw [reclassifyNode_of_mem hmem]
      constructor
      · rw [hk]
        exact iff_of_false (by decide) (fun hn => hn hmem)
      · intro _
        exact hk
    · rw [reclassifyNode_isolated_class hk hmem]
      constructor
      · exact iff_of_true rfl hmem
      · intro hmem2
        exact absurd hmem2 hmem
  · intro root files docSyms refsProvider g hb
    unfold build_code_graph at hb
    cases hc : collectFiles root files docSyms with
    | error e => rw [hc] at hb; exact absurd hb (by simp)
    | ok gs =>
      rw [hc] at hb
      simp only [Except.ok.injEq] at hb
      subst hb
      exact ⟨rfl, rfl⟩

theorem claim_C6_witness :
    ((gsEx.nodes.get ⟨0, by decide⟩).kind = "CLASS" ∧
      (gsEx.nodes.get ⟨0, by decide⟩).id ∈
        edgeNodeIds [] (gsEx.method_class_edges ++ gsEx.property_class_edges) ∧
      ((reclassify_isolated_classes_as_imports gsEx.nodes []
          (gsEx.method_class_edges ++ gsEx.property_class_edges)).get
        ⟨0, by decide⟩).kind = "CLASS") ∧
    (∀ g, build_code_graph "root" ["operations.py", "main.py"] docSymsEx
        refsEx = .ok g →
      g.call.nodes = g.declaration.nodes ∧ g.declaration.nodes = g.combined.nodes) :=
  ⟨⟨by decide, by decide,
      ((claim_C6.1 gsEx.nodes []
          (gsEx.method_class_edges ++ gsEx.property_class_edges) 0 (by decide)
          (by decide) (by decide)).2 (by decide))⟩,
    fun g hg => claim_C6.2 "root" ["operations.py", "main.py"] docSymsEx refsEx g hg⟩

/-- C10: the reclassification pass is a frame-preserving kind update: the
returned list has the same length and order, every node keeps its id, name,
file and line, and every node that is not an edge-free CLASS node is
returned entirely unchanged. -/
theorem claim_C10 (nodes : List Node) (ce de : List Edge) (i : Nat)
    (h : i < nodes.length)
    (h2 : i < (reclassify_isolated_classes_as_imports nodes ce de).length) :
    (reclassify_isolated_classes_as_imports nodes ce de).length = nodes.length ∧
    ((reclassify_isolated_classes_as_imports nodes ce de).get ⟨i, h2⟩).id =
      (nodes.get ⟨i, h⟩).id ∧
    ((reclassify_isolated_classes_as_imports nodes ce de).get ⟨i, h2⟩).name =
      (nodes.get ⟨i, h⟩).name ∧
    ((reclassify_isolated_classes_as_imports nodes ce de).get ⟨i, h2⟩).file =
      (nodes.get ⟨i, h⟩).file ∧
    ((reclassify_isolated_classes_as_imports nodes ce de).get ⟨i, h2⟩).line =
      (nodes.get ⟨i, h⟩).line ∧
    (¬((nodes.get ⟨i, h⟩).kind = "CLASS" ∧
        (nodes.get ⟨i, h⟩).id ∉ edgeNodeIds ce de) →
      (reclassify_isolated_classes_as_imports nodes ce de).get ⟨i, h2⟩ =
        nodes.get ⟨i, h⟩) := by
  rw [reclassify_get nodes ce de i h h2]
  by_cases hk : (nodes.get ⟨i, h⟩).kind = "CLASS"
  · by_cases hmem : (nodes.get ⟨i, h⟩).id ∈ edgeNodeIds ce de
    · rw [reclassifyNode_of_mem hmem]
      exact ⟨reclassify_length nodes ce de, rfl, rfl, rfl, rfl, fun _ => rfl⟩
    · rw [reclassifyNode_isolated_class hk hmem]
      refine ⟨reclassify_length nodes ce de, rfl, rfl, rfl, rfl, ?_⟩
      intro hno
      exact absurd ⟨hk, hmem⟩ hno
  · rw [reclassifyNode_not_class hk]
    exact ⟨reclassify_length nodes ce de, rfl, rfl, rfl, rfl, fun _ => rfl⟩

theorem claim_C10_witness :
    ((reclassify_isolated_classes_as_imports gsEx.nodes [] []).get
        ⟨1, by decide⟩).id = (gsEx.nodes.get ⟨1, by decide⟩).id ∧
    (¬((gsEx.nodes.get ⟨1, by decide⟩).kind = "CLASS" ∧
        (gsEx.nodes.get ⟨1, by decide⟩).id ∉ edgeNodeIds [] []) →
      (reclassify_isolated_classes_as_imports gsEx.nodes [] []).get
        ⟨1, by decide⟩ = gsEx.nodes.get ⟨1, by decide⟩) :=
  ⟨(claim_C10 gsEx.nodes [] [] 1 (by decide) (by decide)).2.1,
    (claim_C10 gsEx.nodes [] [] 1 (by decide) (by decide)).2.2.2.2.2⟩

lemma mem_nodeIds_mono {nodes : List Node} {s : String}
    (h : s ∈ nodeIds nodes) (ext : List Node) : s ∈ nodeIds (nodes ++ ext) := by
  simp only [nodeIds, List.map_append, List.mem_append]
  exact Or.inl h

lemma mem_nodeIds_self (nodes : List Node) (node : Node) :
    node.id ∈ nodeIds (nodes ++ [node]) := by
  simp [nodeIds]

lemma poolInv_mono {pool : List EntityInfo} {nodes : List Node}
    (h : poolInv pool nodes) (ext : List Node) : poolInv pool (nodes ++ ext) :=
  fun e he => mem_nodeIds_mono (h e he) ext

lemma poolInv_snoc {pool : List EntityInfo} {nodes nodes2 : List Node}
    {e : EntityInfo} (h : poolInv pool nodes)
    (hmono : ∀ s ∈ nodeIds nodes, s ∈ nodeIds nodes2)
    (he : mkId e.name e.file ∈ nodeIds nodes2) :
    poolInv (pool ++ [e]) nodes2 := by
  intro x hx
  rcases List.mem_append.mp hx with hx | hx
  · exact hmono _ (h x hx)
  · rw [List.mem_singleton.mp hx]
    exact he

lemma edgesInv_mono {edges : List Edge} {nodes : List Node}
    (h : edgesInv edges nodes) (ext : List Node) :
    edgesInv edges (nodes ++ ext) := fun e he =>
  ⟨mem_nodeIds_mono (h e he).1 ext, mem_nodeIds_mono (h e he).2 ext⟩

lemma edgesInv_snoc {edges : List Edge} {nodes nodes2 : List Node} {e : Edge}
    (h : edgesInv edges nodes)
    (hmono : ∀ s ∈ nodeIds nodes, s ∈ nodeIds nodes2)
    (hf : e.fro ∈ nodeIds nodes2) (ht : e.toId ∈ nodeIds nodes2) :
    edgesInv (edges ++ [e]) nodes2 := by
  intro x hx
  rcases List.mem_append.mp hx with hx | hx
  · exact ⟨hmono _ (h x hx).1, hmono _ (h x hx).2⟩
  · rw [List.mem_singleton.mp hx]
    exact ⟨hf, ht⟩

theorem processSymbol_inv (fp : String) :
    ∀ (sym : Symbol) (pc : Option String) (st : FileState),
      stInv st → pcInv fp pc st.nodes →
        stInv (processSymbol fp sym pc st) ∧
          ∀ s ∈ nodeIds st.nodes, s ∈ nodeIds (processSymbol fp sym pc st).nodes := by
  refine processSymbol.induct fp
    (fun sym pc st => stInv st → pcInv fp pc st.nodes →
      stInv (processSymbol fp sym pc st) ∧
        ∀ s ∈ nodeIds st.nodes, s ∈ nodeIds (processSymbol fp sym pc st).nodes)
    (fun syms pc st => stInv st → pcInv fp pc st.nodes →
      stInv (processSymbols fp syms pc st) ∧
        ∀ s ∈ nodeIds st.nodes, s ∈ nodeIds (processSymbols fp syms pc st).nodes)
    ?_ ?_ ?_ ?_ ?_ ?_ ?_ ?_
  · -- class, kind 5
    intro pc st n sL eL selL selC children
    dsimp only
    intro ih h hpc
    simp only [processSymbol]
    obtain ⟨h1, h2, h3, h4, h5, h6, h7⟩ := h
    have hmono1 : ∀ s ∈ nodeIds st.nodes,
        s ∈ nodeIds (st.nodes ++
          [⟨mkId n (basename fp), n, "CLASS", basename fp, sL + 1⟩]) :=
      fun s hs => mem_nodeIds_mono hs _
    obtain ⟨hres, hmres⟩ := ih
      ⟨poolInv_mono h1 _, poolInv_snoc h2 hmono1 (mem_nodeIds_self st.nodes _),
        poolInv_mono h3 _, poolInv_mono h4 _, poolInv_mono h5 _,
        edgesInv_mono h6 _, edgesInv_mono h7 _⟩
      (fun p hp2 => by cases hp2; exact mem_nodeIds_self st.nodes _)
    exact ⟨hres, fun s hs => hmres s (hmono1 s hs)⟩
  · -- import, kind 2
    intro pc st n sL eL selL selC children
    dsimp only
    intro _ ih h hpc
    simp only [processSymbol]
    obtain ⟨h1, h2, h3, h4, h5, h6, h7⟩ := h
    have hmono1 : ∀ s ∈ nodeIds st.nodes,
        s ∈ nodeIds (st.nodes ++
          [⟨mkId n (basename fp), n, "IMPORT", basename fp, sL + 1⟩]) :=
      fun s hs => mem_nodeIds_mono hs _
    obtain ⟨hres, hmres⟩ := ih
      ⟨poolInv_mono h1 _, poolInv_mono h2 _, poolInv_mono h3 _,
        poolInv_mono h4 _, poolInv_snoc h5 hmono1 (mem_nodeIds_self st.nodes _),
        edgesInv_mono h6 _, edgesInv_mono h7 _⟩
      (fun p hp2 => hmono1 _ (hpc p hp2))
    exact ⟨hres, fun s hs => hmres s (hmono1 s hs)⟩
  · -- method, kind 6
    intro pc st n sL eL selL selC children
    dsimp only
    intro _ _ ih h hpc
    simp only [processSymbol]
    obtain ⟨h1, h2, h3, h4, h5, h6, h7⟩ := h
    have hmono1 : ∀ s ∈ nodeIds st.nodes,
        s ∈ nodeIds (st.nodes ++
          [⟨mkId n (basename fp), n, "METHOD", basename fp, sL + 1⟩]) :=
      fun s hs => mem_nodeIds_mono hs _
    cases pc with
    | none =>
      obtain ⟨hres, hmres⟩ := ih
        ⟨poolInv_mono h1 _, poolInv_mono h2 _,
          poolInv_snoc h3 hmono1 (mem_nodeIds_self st.nodes _),
          poolInv_mono h4 _, poolInv_mono h5 _,
          edgesInv_mono h6 _, edgesInv_mono h7 _⟩
        (fun p hp2 => by cases hp2)
      exact ⟨hres, fun s hs => hmres s (hmono1 s hs)⟩
    | some p =>
      obtain ⟨hres, hmres⟩ := ih
        ⟨poolInv_mono h1 _, poolInv_mono h2 _,
          poolInv_snoc h3 hmono1 (mem_nodeIds_self st.nodes _),
          poolInv_mono h4 _, poolInv_mono h5 _,
          edgesInv_snoc h6 hmono1 (hmono1 _ (hpc p rfl))
            (mem_nodeIds_self st.nodes _),
          edgesInv_mono h7 _⟩
        (fun q hq2 => by cases hq2; exact hmono1 _ (hpc p rfl))
      exact ⟨hres, fun s hs => hmres s (hmono1 s hs)⟩
  · -- property, kind 7
    intro pc st n sL eL selL selC children
    dsimp only
    intro _ _ _ ih h hpc
    simp only [processSymbol]
    obtain ⟨h1, h2, h3, h4, h5, h6, h7⟩ := h
    have hmono1 : ∀ s ∈ nodeIds st.nodes,
        s ∈ nodeIds (st.nodes ++
          [⟨mkId n (basename fp), n, "PROPERTY", basename fp, sL + 1⟩]) :=
      fun s hs => mem_nodeIds_mono hs _
    cases pc with
    | none =>
      obtain ⟨hres, hmres⟩ := ih
        ⟨poolInv_mono h1 _, poolInv_mono h2 _, poolInv_mono h3 _,
          poolInv_snoc h4 hmono1 (mem_nodeIds_self st.nodes _),
          poolInv_mono h5 _, edgesInv_mono h6 _, edgesInv_mono h7 _⟩
        (fun p hp2 => by cases hp2)
      exact ⟨hres, fun s hs => hmres s (hmono1 s hs)⟩
    | some p =>
      obtain ⟨hres, hmres⟩ := ih
        ⟨poolInv_mono h1 _, poolInv_mono h2 _, poolInv_mono h3 _,
          poolInv_snoc h4 hmono1 (mem_nodeIds_self st.nodes _),
          poolInv_mono h5 _, edgesInv_mono h6 _,
          edgesInv_snoc h7 hmono1 (hmono1 _ (hpc p rfl))
            (mem_nodeIds_self st.nodes _)⟩
        (fun q hq2 => by cases hq2; exact hmono1 _ (hpc p rfl))
      exact ⟨hres, fun s hs => hmres s (hmono1 s hs)⟩
  · -- function, kind 12
    intro pc st n sL eL selL selC children
    dsimp only
    intro _ _ _ _ ih h hpc
    simp only [processSymbol]
    obtain ⟨h1, h2, h3, h4, h5, h6, h7⟩ := h
    have hmono1 : ∀ s ∈ nodeIds st.nodes,
        s ∈ nodeIds (st.nodes ++
          [⟨mkId n (basename fp), n, "FUNCTION", basename fp, sL + 1⟩]) :=
      fun s hs => mem_nodeIds_mono hs _
    obtain ⟨hres, hmres⟩ := ih
      ⟨poolInv_snoc h1 hmono1 (mem_nodeIds_self st.nodes _),
        poolInv_mono h2 _, poolInv_mono h3 _, poolInv_mono h4 _,
        poolInv_mono h5 _, edgesInv_mono h6 _, edgesInv_mono h7 _⟩
      (fun p hp2 => hmono1 _ (hpc p hp2))
    exact ⟨hres, fun s hs => hmres s (hmono1 s hs)⟩
  · -- any other kind
    intro pc st n kd sL eL selL selC children hk5 hk2 hk6 hk7 hk12 ih h hpc
    have heq : processSymbol fp (Symbol.mk n kd sL eL selL selC children) pc st =
        processSymbols fp children pc st := by
      simp only [processSymbol]
      simp [hk5, hk2, hk6, hk7, hk12]
    rw [heq]
    exact ih h hpc
  · -- nil
    intro pc st h hpc
    simp only [processSymbols]
    exact ⟨h, fun s hs => hs⟩
  · -- cons
    intro pc st s rest ih1 ih2 h hpc
    simp only [processSymbols]
    obtain ⟨hs1, hm1⟩ := ih1 h hpc
    obtain ⟨hs2, hm2⟩ := ih2 hs1 (fun p hp2 => hm1 _ (hpc p hp2))
    exact ⟨hs2, fun x hx => hm2 _ (hm1 _ hx)⟩

theorem processSymbols_inv (fp : String) :
    ∀ (syms : List Symbol) (pc : Option String) (st : FileState),
      stInv st → pcInv fp pc st.nodes →
        stInv (processSymbols fp syms pc st) ∧
          ∀ s ∈ nodeIds st.nodes, s ∈ nodeIds (processSymbols fp syms pc st).nodes := by
  intro syms
  induction syms with
  | nil =>
    intro pc st h hpc
    simp only [processSymbols]
    exact ⟨h, fun s hs => hs⟩
  | cons s rest ih =>
    intro pc st h hpc
    simp only [processSymbols]
    obtain ⟨h1, m1⟩ := processSymbol_inv fp s pc st h hpc
    obtain ⟨h2, m2⟩ := ih pc _ h1 (fun p hp2 => m1 _ (hpc p hp2))
    exact ⟨h2, fun x hx => m2 _ (m1 _ hx)⟩

lemma emptyFileState_inv : stInv emptyFileState := by
  refine ⟨?_, ?_, ?_, ?_, ?_, ?_, ?_⟩ <;>
    intro e he <;> exact absurd he (List.not_mem_nil e)

/-- The reconciliation fold only adds edges whose endpoints are ids of a
class and of a member entity, both of which have nodes. -/
lemma reconcile_fold_edgesInv (classes members : List EntityInfo)
    (nodes : List Node) (hc : poolInv classes nodes)
    (hm : poolInv members nodes) (tent : List Edge)
    (ht : edgesInv tent nodes) :
    edgesInv (members.foldl (reconcileStep classes) tent) nodes := by
  refine foldl_preserves _ (fun l : List Edge => edgesInv l nodes) _ _ ht ?_
  intro a m hmmem ha
  unfold reconcileStep
  cases hfind : classes.find? (fun c => containsMember c m) with
  | none => exact ha
  | some c =>
    intro x hx
    dsimp only at hx
    by_cases he : (⟨mkId c.name c.file, mkId m.name m.file⟩ : Edge) ∈ a
    · rw [if_pos he] at hx
      exact ha x hx
    · rw [if_neg he] at hx
      rcases List.mem_append.mp hx with hx | hx
      · exact ha x hx
      · rw [List.mem_singleton.mp hx]
        exact ⟨hc c (List.mem_of_find?_eq_some hfind), hm m hmmem⟩

/-- Per-file invariant: every discovered entity has a node with its id and
every declaration edge has both endpoints among the node ids. -/
theorem get_functions_inv (fp : String) (syms : List Symbol) :
    stInv (get_functions_from_file fp syms) := by
  unfold get_functions_from_file
  by_cases hempty : syms.isEmpty
  · rw [if_pos hempty]
    exact emptyFileState_inv
  · rw [if_neg hempty]
    obtain ⟨h1, h2, h3, h4, h5, h6, h7⟩ :=
      (processSymbols_inv fp syms none emptyFileState emptyFileState_inv
        (fun p hp => by cases hp)).1
    exact ⟨h1, h2, h3, h4, h5,
      reconcile_fold_edgesInv _ _ _ h2 h3 _ h6,
      reconcile_fold_edgesInv _ _ _ h2 h4 _ h7⟩

lemma mem_nodeIds_mono_right {nodes : List Node} {s : String}
    (h : s ∈ nodeIds nodes) (ext : List Node) : s ∈ nodeIds (ext ++ nodes) := by
  simp only [nodeIds, List.map_append, List.mem_append]
  exact Or.inr h

lemma poolInv_union {p1 p2 : List EntityInfo} {n1 n2 : List Node}
    (h1 : poolInv p1 n1) (h2 : poolInv p2 n2) :
    poolInv (p1 ++ p2) (n1 ++ n2) := by
  intro e he
  rcases List.mem_append.mp he with he | he
  · exact mem_nodeIds_mono (h1 e he) n2
  · exact mem_nodeIds_mono_right (h2 e he) n1

lemma edgesInv_union {e1 e2 : List Edge} {n1 n2 : List Node}
    (h1 : edgesInv e1 n1) (h2 : edgesInv e2 n2) :
    edgesInv (e1 ++ e2) (n1 ++ n2) := by
  intro e he
  rcases List.mem_append.mp he with he | he
  · exact ⟨mem_nodeIds_mono (h1 e he).1 n2, mem_nodeIds_mono (h1 e he).2 n2⟩
  · exact ⟨mem_nodeIds_mono_right (h2 e he).1 n1,
      mem_nodeIds_mono_right (h2 e he).2 n1⟩

lemma edgesInv_append_same {e1 e2 : List Edge} {n : List Node}
    (h1 : edgesInv e1 n) (h2 : edgesInv e2 n) : edgesInv (e1 ++ e2) n := by
  intro e he
  rcases List.mem_append.mp he with he | he
  · exact h1 e he
  · exact h2 e he

lemma collectFile_inv {root : String}
    {docSyms : String → Except String (List Symbol)} {gs gs2 : GlobalState}
    {file : String} (h : gsInv gs)
    (hok : collectFile root docSyms gs file = .ok gs2) : gsInv gs2 := by
  unfold collectFile at hok
  dsimp only at hok
  cases hd : docSyms (relpathUnder root (joinPath root file)) with
  | error e => rw [hd] at hok; cases hok
  | ok syms =>
    rw [hd] at hok
    simp only [Except.ok.injEq] at hok
    subst hok
    obtain ⟨g1, g2, g3, g4, g5, g6, g7⟩ := h
    obtain ⟨f1, f2, f3, f4, f5, f6, f7⟩ :=
      get_functions_inv (joinPath root file) syms
    exact ⟨poolInv_union g1 f1, poolInv_union g2 f2, poolInv_union g3 f3,
      poolInv_union g4 f4, poolInv_union g5 f5, edgesInv_union g6 f6,
      edgesInv_union g7 f7⟩

lemma emptyGlobalState_inv : gsInv emptyGlobalState := by
  refine ⟨?_, ?_, ?_, ?_, ?_, ?_, ?_⟩ <;>
    intro e he <;> exact absurd he (List.not_mem_nil e)

lemma collectFiles_from_inv (root : String)
    (docSyms : String → Except String (List Symbol)) :
    ∀ (files : List String) (gs0 : GlobalState), gsInv gs0 →
      ∀ gs, files.foldlM (collectFile root docSyms) gs0 = .ok gs → gsInv gs := by
  intro files
  induction files with
  | nil =>
    intro gs0 h0 gs hok
    simp only [List.foldlM] at hok
    cases hok
    exact h0
  | cons f rest ih =>
    intro gs0 h0 gs hok
    rw [List.foldlM_cons] at hok
    cases hstep : collectFile root docSyms gs0 f with
    | error e =>
      rw [hstep] at hok
      cases hok
    | ok gs1 =>
      rw [hstep] at hok
      exact ih gs1 (collectFile_inv h0 hstep) gs hok

lemma collectFiles_inv {root : String} {files : List String}
    {docSyms : String → Except String (List Symbol)} {gs : GlobalState}
    (h : collectFiles root files docSyms = .ok gs) : gsInv gs :=
  collectFiles_from_inv root docSyms files emptyGlobalState
    emptyGlobalState_inv gs h

/-- The call-edge pass only records edges between entities drawn from the
pools, all of which have nodes. -/
lemma find_function_edges_inv (root : String)
    (fns cls ms ps imps : List EntityInfo) (nodes : List Node)
    (refsProvider : String → Nat → Nat → Except String (List Ref))
    (hf : poolInv fns nodes) (hm : poolInv ms nodes)
    (hp : poolInv ps nodes) (hi : poolInv imps nodes) :
    edgesInv (find_function_edges root fns cls ms ps imps refsProvider) nodes := by
  unfold find_function_edges
  refine foldl_preserves _ (fun l : List Edge => edgesInv l nodes) _ _
    (fun e he => absurd he (List.not_mem_nil e)) ?_
  intro a b hbmem ha
  unfold calleeStep
  cases hq : refsProvider (relpathUnder root b.file_path) b.selLine b.selChar with
  | error e => simpa [hq] using ha
  | ok l =>
    simp only [hq]
    refine foldl_preserves _ (fun l2 : List Edge => edgesInv l2 nodes) _ _ ha ?_
    intro a2 r _ ha2
    rw [processRef_eq_resolve]
    cases hres : resolveRefEdge root fns ms ps b r with
    | none => exact ha2
    | some e =>
      intro x hx
      rcases mem_dedupAppend hx with hx | hx
      · exact ha2 x hx
      · subst hx
        rcases resolveRefEdge_eq_some hres with ⟨cf, hcf, _, hee⟩
        subst hee
        constructor
        · rcases hcf with hcf | hcf | hcf
          · exact hf cf hcf
          · exact hm cf hcf
          · exact hp cf hcf
        · simp only [allCallees, List.mem_append] at hbmem
          rcases hbmem with ((hb2 | hb2) | hb2) | hb2
          · exact hf b hb2
          · exact hm b hb2
          · exact hp b hb2
          · exact hi b hb2

lemma reclassifyNode_id (S : List String) (node : Node) :
    (reclassifyNode S node).id = node.id := by
  unfold reclassifyNode
  split <;> rfl

lemma reclassify_nodeIds (nodes : List Node) (ce de : List Edge) :
    nodeIds (reclassify_isolated_classes_as_imports nodes ce de) =
      nodeIds nodes := by
  unfold reclassify_isolated_classes_as_imports nodeIds
  rw [List.map_map]
  induction nodes with
  | nil => rfl
  | cons n rest ih =>
    simp only [List.map_cons, Function.comp_apply, reclassifyNode_id]
    rw [ih]

/-- C7: in each of the three graphs the build emits, every edge endpoint is
the id of a node present in that graph's node list. -/
theorem claim_C7 (root : String) (files : List String)
    (docSyms : String → Except String (List Symbol))
    (refsProvider : String → Nat → Nat → Except String (List Ref))
    (g : BuildResult)
    (hb : build_code_graph root files docSyms refsProvider = .ok g) :
    ∀ gr ∈ [g.call, g.declaration, g.combined], ∀ e ∈ gr.edges,
      e.fro ∈ nodeIds gr.nodes ∧ e.toId ∈ nodeIds gr.nodes := by
  unfold build_code_graph at hb
  cases hc : collectFiles root files docSyms with
  | error err =>
    rw [hc] at hb
    cases hb
  | ok gs =>
    rw [hc] at hb
    simp only [Except.ok.injEq] at hb
    subst hb
    obtain ⟨g1, g2, g3, g4, g5, g6, g7⟩ := collectFiles_inv hc
    have hcall : edgesInv (find_function_edges root gs.all_functions
        gs.all_classes gs.all_methods gs.all_properties gs.all_imports
        refsProvider) gs.nodes :=
      find_function_edges_inv root _ _ _ _ _ _ refsProvider g1 g3 g4 g5
    have hdecl : edgesInv (gs.method_class_edges ++ gs.property_class_edges)
        gs.nodes := edgesInv_append_same g6 g7
    intro gr hgr e he
    have hnall : ∀ x ∈ find_function_edges root gs.all_functions gs.all_classes
          gs.all_methods gs.all_properties gs.all_imports refsProvider ++
          (gs.method_class_edges ++ gs.property_class_edges),
        x.fro ∈ nodeIds gs.nodes ∧ x.toId ∈ nodeIds gs.nodes :=
      edgesInv_append_same hcall hdecl
    simp only [List.mem_cons, List.mem_singleton] at hgr
    rcases hgr with hgr | hgr | hgr | hgr
    · subst hgr
      simp only [create_call_graph] at he ⊢
      rw [reclassify_nodeIds]
      exact hnall e (List.mem_append_left _ he)
    · subst hgr
      simp only [create_declaration_graph] at he ⊢
      rw [reclassify_nodeIds]
      exact hnall e (List.mem_append_right _ he)
    · subst hgr
      dsimp only at he ⊢
      rw [reclassify_nodeIds]
      exact hnall e he
    · cases hgr

/-
No-self-loop: the source guards each call edge by name inequality; node ids
are name ++ two colons ++ file, so for colon-free names (Python identifiers
cannot contain colons) distinct names force distinct ids.
-/
lemma string_data_append (a b : String) : (a ++ b).data = a.data ++ b.data := rfl

lemma sep_data : ("::" : String).data = [':', ':'] := rfl

lemma colonfree_append_inj {c : Char} : ∀ {l1 l2 t1 t2 : List Char},
    c ∉ l1 → c ∉ l2 → l1 ++ c :: t1 = l2 ++ c :: t2 → l1 = l2 ∧ t1 = t2 := by
  intro l1
  induction l1 with
  | nil =>
    intro l2 t1 t2 h1 h2 h
    cases l2 with
    | nil => simpa using h
    | cons d ds =>
      rw [List.nil_append, List.cons_append] at h
      injection h with h3 h4
      have hc : c ∈ d :: ds := by
        rw [h3]
        exact List.mem_cons_self d ds
      exact absurd hc h2
  | cons a as ih =>
    intro l2 t1 t2 h1 h2 h
    cases l2 with
    | nil =>
      rw [List.nil_append, List.cons_append] at h
      injection h with h3 h4
      have hc : c ∈ a :: as := by
        rw [← h3]
        exact List.mem_cons_self a as
      exact absurd hc h1
    | cons d ds =>
      rw [List.cons_append, List.cons_append] at h
      injection h with h3 h4
      have h1b : c ∉ as := fun hx => h1 (List.mem_cons_of_mem a hx)
      have h2b : c ∉ ds := fun hx => h2 (List.mem_cons_of_mem d hx)
      obtain ⟨hl, ht⟩ := ih h1b h2b h4
      exact ⟨by rw [h3, hl], ht⟩

lemma mkId_name_eq {n1 f1 n2 f2 : String}
    (h1 : ':' ∉ n1.data) (h2 : ':' ∉ n2.data)
    (h : mkId n1 f1 = mkId n2 f2) : n1 = n2 := by
  have h3 := congrArg String.data h
  simp only [mkId, string_data_append, sep_data, List.append_assoc,
    List.cons_append, List.nil_append] at h3
  exact String.ext (colonfree_append_inj h1 h2 h3).1

/-- Every edge find_function_edges emits joins entities with different
names; with colon-free names the two endpoint ids therefore differ. -/
lemma find_function_edges_no_self_loop (root : String)
    (fns cls ms ps imps : List EntityInfo)
    (refsProvider : String → Nat → Nat → Except String (List Ref))
    (hn : ∀ e ∈ fns ++ ms ++ ps ++ imps, ':' ∉ e.name.data) :
    ∀ e ∈ find_function_edges root fns cls ms ps imps refsProvider,
      e.fro ≠ e.toId := by
  unfold find_function_edges
  refine foldl_preserves _ (fun l : List Edge => ∀ e ∈ l, e.fro ≠ e.toId) _ _
    (fun e he => absurd he (List.not_mem_nil e)) ?_
  intro a b hbmem ha
  unfold calleeStep
  cases hq : refsProvider (relpathUnder root b.file_path) b.selLine b.selChar with
  | error e => simpa [hq] using ha
  | ok l =>
    simp only [hq]
    refine foldl_preserves _ (fun l2 : List Edge => ∀ e ∈ l2, e.fro ≠ e.toId)
      _ _ ha ?_
    intro a2 r _ ha2
    rw [processRef_eq_resolve]
    cases hres : resolveRefEdge root fns ms ps b r with
    | none => exact ha2
    | some e =>
      intro x hx
      rcases mem_dedupAppend hx with hx | hx
      · exact ha2 x hx
      · subst hx
        rcases resolveRefEdge_eq_some hres with ⟨cf, hcf, hname, hee⟩
        subst hee
        intro heq
        apply hname
        have hcfn : ':' ∉ cf.name.data := by
          apply hn
          rcases hcf with hcf | hcf | hcf
          · exact List.mem_append_left _ (List.mem_append_left _
              (List.mem_append_left _ hcf))
          · exact List.mem_append_left _ (List.mem_append_left _
              (List.mem_append_right _ hcf))
          · exact List.mem_append_left _ (List.mem_append_right _ hcf)
        have hbn : ':' ∉ b.name.data := by
          apply hn
          simp only [allCallees, List.mem_append] at hbmem
          simp only [List.mem_append]
          tauto
        exact mkId_name_eq hcfn hbn heq

/-- C5: in a completed build, no Call edge is a self loop, provided no
entity name contains a colon (always true of Python identifiers; ids are
built as name ++ two colons ++ file basename). -/
theorem claim_C5 (root : String) (files : List String)
    (docSyms : String → Except String (List Symbol))
    (refsProvider : String → Nat → Nat → Except String (List Ref))
    (gs : GlobalState) (g : BuildResult)
    (hc : collectFiles root files docSyms = .ok gs)
    (hb : build_code_graph root files docSyms refsProvider = .ok g)
    (hn : ∀ e ∈ gs.all_functions ++ gs.all_methods ++ gs.all_properties ++
      gs.all_imports, ':' ∉ e.name.data) :
    ∀ e ∈ g.call.edges, e.fro ≠ e.toId := by
  unfold build_code_graph at hb
  rw [hc] at hb
  simp only [Except.ok.injEq] at hb
  subst hb
  simp only [create_call_graph]
  exact find_function_edges_no_self_loop root _ _ _ _ _ refsProvider hn

theorem claim_C5_witness :
    (buildEx.call.edges ≠ []) ∧ ∀ e ∈ buildEx.call.edges, e.fro ≠ e.toId :=
  ⟨by decide,
    claim_C5 "root" ["operations.py", "main.py"] docSymsEx refsEx gsEx buildEx
      rfl rfl (by decide)⟩

theorem claim_C7_witness :
    (buildEx.combined.edges ≠ []) ∧
      ∀ gr ∈ [buildEx.call, buildEx.declaration, buildEx.combined],
        ∀ e ∈ gr.edges, e.fro ∈ nodeIds gr.nodes ∧ e.toId ∈ nodeIds gr.nodes :=
  ⟨by decide,
    claim_C7 "root" ["operations.py", "main.py"] docSymsEx refsEx buildEx rfl⟩

/-
Edge membership machinery for C4: the per-reference and per-callee steps
only grow the edge list, and a resolvable reference forces its edge into
the final output.
-/
lemma processRef_mono (root : String) (fns cls ms ps : List EntityInfo)
    (func : EntityInfo) : ∀ (edges : List Edge) (ref : Ref),
    edges ⊆ processRef root fns cls ms ps func edges ref := by
  intro edges ref
  rw [processRef_eq_resolve]
  cases resolveRefEdge root fns ms ps func ref with
  | none => exact fun x hx => hx
  | some e => exact subset_dedupAppend edges e

lemma calleeStep_mono (root : String) (fns cls ms ps : List EntityInfo)
    (refsProvider : String → Nat → Nat → Except String (List Ref)) :
    ∀ (edges : List Edge) (func : EntityInfo),
      edges ⊆ calleeStep root fns cls ms ps refsProvider edges func := by
  intro edges func
  unfold calleeStep
  cases hq : refsProvider (relpathUnder root func.file_path) func.selLine
      func.selChar with
  | error e => simp [hq]
  | ok l =>
    simp only [hq]
    exact foldl_subset_of_mono _ (fun acc r => processRef_mono root fns cls ms ps func acc r) l edges

lemma processRef_mem (root : String) (fns cls ms ps : List EntityInfo)
    (func : EntityInfo) (ref : Ref) (cf : EntityInfo)
    (hcf : find_caller_function fns
      (normpath (joinPath root ref.relativePath)) ref.line = some cf)
    (hname : cf.name ≠ func.name) :
    ∀ acc, (⟨mkId cf.name cf.file, mkId func.name func.file⟩ : Edge) ∈
      processRef root fns cls ms ps func acc ref := by
  intro acc
  rw [processRef_eq_resolve]
  have hres : resolveRefEdge root fns ms ps func ref =
      some ⟨mkId cf.name cf.file, mkId func.name func.file⟩ := by
    simp only [resolveRefEdge]
    rw [hcf]
    simp [callerEdge, hname]
  rw [hres]
  exact self_mem_dedupAppend acc _

/-- The chain arm for a candidate caller yields no edge when the candidate
is absent or carries the same name as the queried entity. -/
lemma callerEdge_eq_none {c : Option EntityInfo} {n id0 : String}
    (h : c = none ∨ ∃ cf, c = some cf ∧ cf.name = n) :
    callerEdge c n id0 = none := by
  rcases h with h | ⟨cf, hc, hn⟩
  · subst h
    rfl
  · subst hc
    simp [callerEdge, hn]

/-- When the function arm does not fire but a method with a different name
contains the reference, the chain records the method-to-callee edge. -/
lemma processRef_mem_method (root : String)
    (fns cls ms ps : List EntityInfo) (func : EntityInfo) (ref : Ref)
    (cm : EntityInfo)
    (hfn : find_caller_function fns
        (normpath (joinPath root ref.relativePath)) ref.line = none ∨
      ∃ cf, find_caller_function fns
        (normpath (joinPath root ref.relativePath)) ref.line = some cf ∧
        cf.name = func.name)
    (hcm : find_caller_method ms
      (normpath (joinPath root ref.relativePath)) ref.line = some cm)
    (hname : cm.name ≠ func.name) :
    ∀ acc, (⟨mkId cm.name cm.file, mkId func.name func.file⟩ : Edge) ∈
      processRef root fns cls ms ps func acc ref := by
  intro acc
  rw [processRef_eq_resolve]
  have hres : resolveRefEdge root fns ms ps func ref =
      some ⟨mkId cm.name cm.file, mkId func.name func.file⟩ := by
    simp only [resolveRefEdge]
    rw [callerEdge_eq_none hfn, hcm]
    simp [callerEdge, hname]
  rw [hres]
  exact self_mem_dedupAppend acc _

/-- When neither the function nor the method arm fires but a property with
a different name contains the reference, the chain records the
property-to-callee edge. -/
lemma processRef_mem_property (root : String)
    (fns cls ms ps : List EntityInfo) (func : EntityInfo) (ref : Ref)
    (cp : EntityInfo)
    (hfn : find_caller_function fns
        (normpath (joinPath root ref.relativePath)) ref.line = none ∨
      ∃ cf, find_caller_function fns
        (normpath (joinPath root ref.relativePath)) ref.line = some cf ∧
        cf.name = func.name)
    (hmm : find_caller_method ms
        (normpath (joinPath root ref.relativePath)) ref.line = none ∨
      ∃ cm, find_caller_method ms
        (normpath (joinPath root ref.relativePath)) ref.line = some cm ∧
        cm.name = func.name)
    (hcp : find_caller_property ps
      (normpath (joinPath root ref.relativePath)) ref.line = some cp)
    (hname : cp.name ≠ func.name) :
    ∀ acc, (⟨mkId cp.name cp.file, mkId func.name func.file⟩ : Edge) ∈
      processRef root fns cls ms ps func acc ref := by
  intro acc
  rw [processRef_eq_resolve]
  have hres : resolveRefEdge root fns ms ps func ref =
      some ⟨mkId cp.name cp.file, mkId func.name func.file⟩ := by
    simp only [resolveRefEdge]
    rw [callerEdge_eq_none hfn, callerEdge_eq_none hmm, hcp]
    simp [callerEdge, hname]
  rw [hres]
  exact self_mem_dedupAppend acc _

/-- An edge that every processing of one reference of one anchor forces
into the accumulator is in the final output of find_function_edges. -/
lemma find_function_edges_mem (root : String)
    (fns cls ms ps imps : List EntityInfo)
    (refsProvider : String → Nat → Nat → Except String (List Ref))
    (func : EntityInfo) (refsList : List Ref) (ref : Ref) (e : Edge)
    (hfunc : func ∈ allCallees fns ms ps imps)
    (hq : refsProvider (relpathUnder root func.file_path) func.selLine
      func.selChar = .ok refsList)
    (href : ref ∈ refsList)
    (hmem : ∀ acc, e ∈ processRef root fns cls ms ps func acc ref) :
    e ∈ find_function_edges root fns cls ms ps imps refsProvider := by
  unfold find_function_edges
  refine mem_foldl_of_step _
    (fun acc b => calleeStep_mono root fns cls ms ps refsProvider acc b) _
    func _ hfunc ?_ []
  intro acc
  unfold calleeStep
  simp only [hq]
  exact mem_foldl_of_step _
    (fun acc2 r => processRef_mono root fns cls ms ps func acc2 r) _ ref
    refsList href hmem acc

/-- C4 amended: the code compares names, not ids.  Following the if/elif
chain (Function ranges first, then Method, then Property), a resolved
containing entity whose NAME differs from the queried entity's name always
yields the Call edge in the output: part one for a function caller, part
two for a method caller when the function arm resolves nothing or a
same-named entity, part three likewise for a property caller.  Part four:
whenever each of the three resolvers finds nothing or only a same-named
entity, the reference records no edge at all, so same-named entities never
produce an edge (even with different ids, see the counterexample) and a
reference contained only in a Class yields no edge.  Part five: globally,
every emitted call edge joins a containing pool entity to a queried anchor
entity whose names differ. -/
theorem claim_C4 :
    (∀ (root : String) (fns cls ms ps imps : List EntityInfo)
      (refsProvider : String → Nat → Nat → Except String (List Ref))
      (func : EntityInfo) (refsList : List Ref) (ref : Ref) (cf : EntityInfo),
      func ∈ allCallees fns ms ps imps →
      refsProvider (relpathUnder root func.file_path) func.selLine
        func.selChar = .ok refsList →
      ref ∈ refsList →
      find_caller_function fns (normpath (joinPath root ref.relativePath))
        ref.line = some cf →
      cf.name ≠ func.name →
      (⟨mkId cf.name cf.file, mkId func.name func.file⟩ : Edge) ∈
        find_function_edges root fns cls ms ps imps refsProvider) ∧
    (∀ (root : String) (fns cls ms ps imps : List EntityInfo)
      (refsProvider : String → Nat → Nat → Except String (List Ref))
      (func : EntityInfo) (refsList : List Ref) (ref : Ref) (cm : EntityInfo),
      func ∈ allCallees fns ms ps imps →
      refsProvider (relpathUnder root func.file_path) func.selLine
        func.selChar = .ok refsList →
      ref ∈ refsList →
      (find_caller_function fns (normpath (joinPath root ref.relativePath))
          ref.line = none ∨
        ∃ cf, find_caller_function fns
          (normpath (joinPath root ref.relativePath)) ref.line = some cf ∧
          cf.name = func.name) →
      find_caller_method ms (normpath (joinPath root ref.relativePath))
        ref.line = some cm →
      cm.name ≠ func.name →
      (⟨mkId cm.name cm.file, mkId func.name func.file⟩ : Edge) ∈
        find_function_edges root fns cls ms ps imps refsProvider) ∧
    (∀ (root : String) (fns cls ms ps imps : List EntityInfo)
      (refsProvider : String → Nat → Nat → Except String (List Ref))
      (func : EntityInfo) (refsList : List Ref) (ref : Ref) (cp : EntityInfo),
      func ∈ allCallees fns ms ps imps →
      refsProvider (relpathUnder root func.file_path) func.selLine
        func.selChar = .ok refsList →
      ref ∈ refsList →
      (find_caller_function fns (normpath (joinPath root ref.relativePath))
          ref.line = none ∨
        ∃ cf, find_caller_function fns
          (normpath (joinPath root ref.relativePath)) ref.line = some cf ∧
          cf.name = func.name) →
      (find_caller_method ms (normpath (joinPath root ref.relativePath))
          ref.line = none ∨
        ∃ cm, find_caller_method ms
          (normpath (joinPath root ref.relativePath)) ref.line = some cm ∧
          cm.name = func.name) →
      find_caller_property ps (normpath (joinPath root ref.relativePath))
        ref.line = some cp →
      cp.name ≠ func.name →
      (⟨mkId cp.name cp.file, mkId func.name func.file⟩ : Edge) ∈
        find_function_edges root fns cls ms ps imps refsProvider) ∧
    (∀ (root : String) (fns cls ms ps : List EntityInfo) (func : EntityInfo)
      (edges : List Edge) (ref : Ref),
      (∀ cf, find_caller_function fns
        (normpath (joinPath root ref.relativePath)) ref.line = some cf →
        cf.name = func.name) →
      (∀ cm, find_caller_method ms
        (normpath (joinPath root ref.relativePath)) ref.line = some cm →
        cm.name = func.name) →
      (∀ cp, find_caller_property ps
        (normpath (joinPath root ref.relativePath)) ref.line = some cp →
        cp.name = func.name) →
      processRef root fns cls ms ps func edges ref = edges) ∧
    (∀ (root : String) (fns cls ms ps imps : List EntityInfo)
      (refsProvider : String → Nat → Nat → Except String (List Ref)),
      ∀ e ∈ find_function_edges root fns cls ms ps imps refsProvider,
        edgeProvenance fns ms ps imps e) := by
  refine ⟨?_, ?_, ?_, ?_, ?_⟩
  · intro root fns cls ms ps imps refsProvider func refsList ref cf hfunc hq
      href hcf hname
    exact find_function_edges_mem root fns cls ms ps imps refsProvider func
      refsList ref _ hfunc hq href
      (processRef_mem root fns cls ms ps func ref cf hcf hname)
  · intro root fns cls ms ps imps refsProvider func refsList ref cm hfunc hq
      href hfn hcm hname
    exact find_function_edges_mem root fns cls ms ps imps refsProvider func
      refsList ref _ hfunc hq href
      (processRef_mem_method root fns cls ms ps func ref cm hfn hcm hname)
  · intro root fns cls ms ps imps refsProvider func refsList ref cp hfunc hq
      href hfn hmm hcp hname
    exact find_function_edges_mem root fns cls ms ps imps refsProvider func
      refsList ref _ hfunc hq href
      (processRef_mem_property root fns cls ms ps func ref cp hfn hmm hcp
        hname)
  · intro root fns cls ms ps func edges ref h1 h2 h3
    rw [processRef_eq_resolve]
    have ha1 : callerEdge (find_caller_function fns
        (normpath (joinPath root ref.relativePath)) ref.line) func.name
        (mkId func.name func.file) = none := by
      cases hfc : find_caller_function fns
          (normpath (joinPath root ref.relativePath)) ref.line with
      | none => rfl
      | some cf => exact callerEdge_eq_none (Or.inr ⟨cf, rfl, h1 cf hfc⟩)
    have ha2 : callerEdge (find_caller_method ms
        (normpath (joinPath root ref.relativePath)) ref.line) func.name
        (mkId func.name func.file) = none := by
      cases hmc : find_caller_method ms
          (normpath (joinPath root ref.relativePath)) ref.line with
      | none => rfl
      | some cm => exact callerEdge_eq_none (Or.inr ⟨cm, rfl, h2 cm hmc⟩)
    have ha3 : callerEdge (find_caller_property ps
        (normpath (joinPath root ref.relativePath)) ref.line) func.name
        (mkId func.name func.file) = none := by
      cases hpc : find_caller_property ps
          (normpath (joinPath root ref.relativePath)) ref.line with
      | none => rfl
      | some cp => exact callerEdge_eq_none (Or.inr ⟨cp, rfl, h3 cp hpc⟩)
    have hres : resolveRefEdge root fns ms ps func ref = none := by
      simp only [resolveRefEdge]
      rw [ha1, ha2, ha3]
    rw [hres]
  · intro root fns cls ms ps imps refsProvider
    unfold find_function_edges
    refine foldl_preserves _
      (fun l : List Edge => ∀ e ∈ l, edgeProvenance fns ms ps imps e) _ _
      (fun e he => absurd he (List.not_mem_nil e)) ?_
    intro a b hbmem ha
    unfold calleeStep
    cases hq : refsProvider (relpathUnder root b.file_path) b.selLine
        b.selChar with
    | error e => simpa [hq] using ha
    | ok l =>
      simp only [hq]
      refine foldl_preserves _
        (fun l2 : List Edge => ∀ e ∈ l2, edgeProvenance fns ms ps imps e)
        _ _ ha ?_
      intro a2 r _ ha2
      rw [processRef_eq_resolve]
      cases hres : resolveRefEdge root fns ms ps b r with
      | none => exact ha2
      | some e =>
        intro x hx
        rcases mem_dedupAppend hx with hx | hx
        · exact ha2 x hx
        · subst hx
          rcases resolveRefEdge_eq_some hres with ⟨cf, hcf, hname, hee⟩
          exact ⟨cf, b, hcf, hbmem, hname, hee⟩

/-- C4 counterexample: the containing entity of the reference is the
Function main in b.py, whose id differs from the queried main in a.py, yet
the name-based guard suppresses the edge and the output is empty where the
claim requires a recorded Call edge. -/
theorem claim_C4_cex :
    (find_caller_function fnsC4 (normpath (joinPath "root" "b.py")) 2 =
      some (EntityInfo.mk "main" "FUNCTION" "root/b.py" 1 "b.py" 0 5 0 4 none)) ∧
    mkId "main" "b.py" ≠ mkId "main" "a.py" ∧
    find_function_edges "root" fnsC4 [] [] [] [] refsC4 = [] := by
  refine ⟨by decide, by decide, by decide⟩

theorem claim_C4_witness :
    ((⟨mkId "main" "main.py", mkId "add" "operations.py"⟩ : Edge) ∈
      find_function_edges "root" gsEx.all_functions gsEx.all_classes
        gsEx.all_methods gsEx.all_properties gsEx.all_imports refsEx) ∧
    ((⟨mkId "caller" "c.py", mkId "helper" "d.py"⟩ : Edge) ∈
      find_function_edges "root" gsM.all_functions gsM.all_classes
        gsM.all_methods gsM.all_properties gsM.all_imports refsM) ∧
    processRef "root" fnsC4 [] [] []
      (EntityInfo.mk "main" "FUNCTION" "root/a.py" 1 "a.py" 0 5 0 4 none)
      [] ⟨"b.py", 2⟩ = [] :=
  ⟨claim_C4.1 "root" gsEx.all_functions gsEx.all_classes gsEx.all_methods
      gsEx.all_properties gsEx.all_imports refsEx
      (EntityInfo.mk "add" "METHOD" "root/operations.py" 13 "operations.py"
        12 13 12 8 (some "Calculator"))
      [⟨"main.py", 3⟩] ⟨"main.py", 3⟩
      (EntityInfo.mk "main" "FUNCTION" "root/main.py" 2 "main.py" 1 8 1 4 none)
      (by decide) rfl (by decide) (by decide) (by decide),
    claim_C4.2.1 "root" gsM.all_functions gsM.all_classes gsM.all_methods
      gsM.all_properties gsM.all_imports refsM
      (EntityInfo.mk "helper" "FUNCTION" "root/d.py" 1 "d.py" 0 5 0 4 none)
      [⟨"c.py", 3⟩] ⟨"c.py", 3⟩
      (EntityInfo.mk "caller" "METHOD" "root/c.py" 3 "c.py" 2 4 2 8 (some "C"))
      (by decide) rfl (by decide) (Or.inl (by decide)) (by decide) (by decide),
    claim_C4.2.2.2.1 "root" fnsC4 [] [] []
      (EntityInfo.mk "main" "FUNCTION" "root/a.py" 1 "a.py" 0 5 0 4 none)
      [] ⟨"b.py", 2⟩
      (fun cf hcf => by
        have h3 : some (EntityInfo.mk "main" "FUNCTION" "root/b.py" 1 "b.py"
            0 5 0 4 none) = some cf := Eq.trans (by decide) hcf
        cases h3
        rfl)
      (fun cm hcm => by cases hcm)
      (fun cp hcp => by cases hcp)⟩

/-
Declaration-edge multiplicity machinery for C2.
-/
lemma reconcileStep_mono (classes : List EntityInfo) :
    ∀ (edges : List Edge) (m : EntityInfo),
      edges ⊆ reconcileStep classes edges m := by
  intro edges m
  unfold reconcileStep
  cases classes.find? (fun c => containsMember c m) with
  | none => exact fun x hx => hx
  | some c =>
    dsimp only
    by_cases he : (⟨mkId c.name c.file, mkId m.name m.file⟩ : Edge) ∈ edges
    · rw [if_pos he]
      exact fun x hx => hx
    · rw [if_neg he]
      exact List.subset_append_left _ _

lemma count_reconcileStep_le (classes : List EntityInfo) (e : Edge)
    (edges : List Edge) (m : EntityInfo) :
    (reconcileStep classes edges m).count e ≤ max (edges.count e) 1 := by
  unfold reconcileStep
  cases classes.find? (fun c => containsMember c m) with
  | none => exact le_max_left _ _
  | some c =>
    dsimp only
    by_cases he : (⟨mkId c.name c.file, mkId m.name m.file⟩ : Edge) ∈ edges
    · rw [if_pos he]
      exact le_max_left _ _
    · rw [if_neg he]
      rw [List.count_append]
      by_cases hex : e = (⟨mkId c.name c.file, mkId m.name m.file⟩ : Edge)
      · have h0 : edges.count e = 0 := by
          rw [List.count_eq_zero, hex]
          exact he
        have h1 : List.count e [(⟨mkId c.name c.file, mkId m.name m.file⟩ : Edge)] ≤ 1 :=
          List.count_le_length e _
        omega
      · have h1 : List.count e [(⟨mkId c.name c.file, mkId m.name m.file⟩ : Edge)] = 0 := by
          rw [List.count_eq_zero]
          simp [hex]
        omega

lemma count_reconcile_fold_le (classes : List EntityInfo) (e : Edge) :
    ∀ (members : List EntityInfo) (tent : List Edge),
      ((members.foldl (reconcileStep classes) tent).count e) ≤
        max (tent.count e) 1 := by
  intro members
  induction members with
  | nil =>
    intro tent
    exact le_max_left _ _
  | cons m rest ih =>
    intro tent
    have h1 := ih (reconcileStep classes tent m)
    have h2 := count_reconcileStep_le classes e tent m
    simp only [List.foldl_cons]
    omega

lemma find?_eq_of_unique {α : Type} (p : α → Bool) (l : List α) (K : α)
    (hK : K ∈ l) (hpK : p K = true)
    (huniq : ∀ c ∈ l, p c = true → c = K) : l.find? p = some K := by
  induction l with
  | nil => cases hK
  | cons a rest ih =>
    by_cases hpa : p a = true
    · have ha : a = K := huniq a (List.mem_cons_self a rest) hpa
      rw [List.find?_cons_of_pos rest hpa, ha]
    · rw [List.find?_cons_of_neg rest hpa]
      rcases List.mem_cons.mp hK with hK2 | hK2
      · rw [hK2] at hpK
        exact absurd hpK hpa
      · exact ih hK2 (fun c hc hpc => huniq c (List.mem_cons_of_mem a hc) hpc)

lemma reconcile_fold_mem (classes : List EntityInfo) (m K : EntityInfo)
    (hfind : classes.find? (fun c => containsMember c m) = some K) :
    ∀ (members : List EntityInfo), m ∈ members → ∀ tent,
      (⟨mkId K.name K.file, mkId m.name m.file⟩ : Edge) ∈
        members.foldl (reconcileStep classes) tent := by
  intro members hm tent
  refine mem_foldl_of_step _ (reconcileStep_mono classes) _ m members hm ?_ tent
  intro acc
  unfold reconcileStep
  rw [hfind]
  exact self_mem_dedupAppend acc _

lemma reconcile_exact_one (classes members : List EntityInfo)
    (tent : List Edge) (m K : EntityInfo) (hm : m ∈ members) (hK : K ∈ classes)
    (hcont : containsMember K m = true)
    (huniq : ∀ c ∈ classes, containsMember c m = true → c = K)
    (hcount : tent.count (⟨mkId K.name K.file, mkId m.name m.file⟩ : Edge) ≤ 1) :
    (members.foldl (reconcileStep classes) tent).count
      (⟨mkId K.name K.file, mkId m.name m.file⟩ : Edge) = 1 := by
  have hfind := find?_eq_of_unique (fun c => containsMember c m) classes K hK
    hcont huniq
  have hmem := reconcile_fold_mem classes m K hfind members hm tent
  have hle := count_reconcile_fold_le classes
    (⟨mkId K.name K.file, mkId m.name m.file⟩ : Edge) members tent
  have hge := List.count_pos_iff.mpr hmem
  omega

/-- C2 amended: a Method inside exactly one Class's inclusive line range
gets exactly one Declaration edge with that class id and its own id,
provided the tentative nested-symbol pass recorded that id pair at most
once (tentative edges are appended without deduplication, so duplicate
same-named classes can break this; see the counterexample); the
reconciliation pass scans every method, relies on deduplication against the
already-present edges, and stops at the first matching class. -/
theorem claim_C2 (fp : String) (syms : List Symbol) (m K : EntityInfo)
    (hm : m ∈ (processSymbols fp syms none emptyFileState).all_methods)
    (hK : K ∈ (processSymbols fp syms none emptyFileState).all_classes)
    (hcont : containsMember K m = true)
    (huniq : ∀ c ∈ (processSymbols fp syms none emptyFileState).all_classes,
      containsMember c m = true → c = K)
    (hcount : (processSymbols fp syms none
        emptyFileState).method_class_edges.count
      (⟨mkId K.name K.file, mkId m.name m.file⟩ : Edge) ≤ 1) :
    (get_functions_from_file fp syms).method_class_edges.count
      (⟨mkId K.name K.file, mkId m.name m.file⟩ : Edge) = 1 := by
  cases syms with
  | nil => simp [processSymbols, emptyFileState] at hm
  | cons s rest =>
    unfold get_functions_from_file
    rw [if_neg (by simp)]
    dsimp only
    exact reconcile_exact_one _ _ _ m K hm hK hcont huniq hcount

theorem claim_C2_cex :
    ((EntityInfo.mk "m" "METHOD" "root/p.py" 3 "p.py" 2 3 2 8 (some "K")) ∈
      (processSymbols "root/p.py" symsDup none emptyFileState).all_methods) ∧
    ((processSymbols "root/p.py" symsDup none emptyFileState).all_classes.filter
      (fun c => containsMember c
        (EntityInfo.mk "m" "METHOD" "root/p.py" 3 "p.py" 2 3 2 8
          (some "K")))).length = 1 ∧
    (get_functions_from_file "root/p.py" symsDup).method_class_edges.count
      (⟨mkId "K" "p.py", mkId "m" "p.py"⟩ : Edge) = 2 := by
  refine ⟨by decide, by decide, by decide⟩

theorem claim_C2_witness :
    (get_functions_from_file "root/operations.py" symsOps).method_class_edges.count
      (⟨mkId "Calculator" "operations.py", mkId "add" "operations.py"⟩ : Edge) = 1 :=
  claim_C2 "root/operations.py" symsOps
    (EntityInfo.mk "add" "METHOD" "root/operations.py" 13 "operations.py"
      12 13 12 8 (some "Calculator"))
    (EntityInfo.mk "Calculator" "CLASS" "root/operations.py" 11
      "operations.py" 10 30 10 6 none)
    (by decide) (by decide) (by decide) (by decide) (by decide)

end BasicParser
